import Mathlib

/-!
# mergedeps: the pipeline of `cmd/mergedeps/main.go`

A shallow embedding of the title pattern, the two paginated enumerators, the interactive
`confirm` prompt and the coordinator loop of `run`, followed by the properties proved about
them.

Conventions.
* Go strings are lists of characters (`Str`).
* `regexp` matching is the backtracking search that the `regexp` package documents as its
  semantics (leftmost match, and among those the one a backtracking search finds first).
* Calls to the GitHub client are answered from a list of responses, one per call, in order.
* Standard input is the list of texts that successive `stdin.ReadString` calls return.
* `strings.ToLower` and `strings.TrimSpace` are parameters of `confirm` and of everything
  that calls it.
* The coordinator loop is driven by the list of outcomes of its `select` statement.
-/

namespace MergeDeps

/-- Go `string`, as the list of its characters. -/
abbrev Str := List Char

/-! ## Regular expressions -/

/-- The fragment of the `regexp` syntax that `titleRegex` is written in. -/
inductive Regex where
  /-- Anchor `^`: beginning of the text. -/
  | bol
  /-- Anchor `$`: end of the text (no multi-line flag is set). -/
  | eol
  /-- A literal string. -/
  | lit (s : Str)
  /-- Pattern `.+`: one or more characters other than the line feed, as many as possible. -/
  | anyPlus
  /-- Pattern `( r )`: a capturing group. -/
  | group (r : Regex)
  /-- Concatenation. -/
  | seq (r s : Regex)

/-- Match the literal `s` at the head of the input and continue with `k` on what follows. -/
def matchLit {α : Type} (k : Str → Option α) : Str → Str → Option α
  | [], input => k input
  | _ :: _, [] => none
  | c :: cs, d :: ds => if c = d then matchLit k cs ds else none

/-- Greedy `.*`: consume a character other than the line feed and try again; when that fails,
continue with `k` from here. -/
def anyStar {α : Type} (k : Str → Option α) : Str → Option α
  | [] => k []
  | c :: cs =>
    if c = '\n' then k (c :: cs)
    else match anyStar k cs with
      | some r => some r
      | none => k (c :: cs)

/-- Greedy `.+`: one character other than the line feed, then greedy `.*`. -/
def anyPlusK {α : Type} (k : Str → Option α) : Str → Option α
  | [] => none
  | c :: cs => if c = '\n' then none else anyStar k cs

/-- Backtracking matcher in continuation-passing style. `text` is the whole subject string,
`input` what is left of it at the current position, `caps` the groups captured so far (in
the order in which they were closed) and `k` the rest of the match. -/
def Regex.run (text : Str) : Regex → Str → List Str → (Str → List Str → Option (List Str)) →
    Option (List Str)
  | .bol, input, caps, k => if input.length = text.length then k input caps else none
  | .eol, input, caps, k => if input = [] then k input caps else none
  | .lit s, input, caps, k => matchLit (fun rest => k rest caps) s input
  | .anyPlus, input, caps, k => anyPlusK (fun rest => k rest caps) input
  | .group r, input, caps, k =>
    r.run text input caps
      (fun rest caps1 => k rest (caps1 ++ [input.take (input.length - rest.length)]))
  | .seq r s, input, caps, k => r.run text input caps (fun rest caps1 => s.run text rest caps1 k)

/-- The first match that starts at the current position: the matched text followed by the
captured groups. -/
def Regex.matchAt (re : Regex) (text input : Str) : Option (List Str) :=
  re.run text input [] (fun rest caps => some (input.take (input.length - rest.length) :: caps))

/-- Leftmost match: try every start position from left to right. -/
def Regex.search (re : Regex) (text : Str) : Str → Option (List Str)
  | [] => re.matchAt text []
  | c :: cs =>
    match re.matchAt text (c :: cs) with
    | some m => some m
    | none => re.search text cs

/-- Method `(*Regexp).FindStringSubmatch`: the leftmost match and its groups, or the empty
slice. -/
def FindStringSubmatch (re : Regex) (s : Str) : List Str :=
  match re.search s s with
  | some m => m
  | none => []

/-- The pattern `titleRegex = regexp.MustCompile("^Bump (.+) from .+ to (.+)$")`. -/
def titleRegex : Regex :=
  .seq .bol (.seq (.lit "Bump ".toList) (.seq (.group .anyPlus) (.seq (.lit " from ".toList)
    (.seq .anyPlus (.seq (.lit " to ".toList) (.seq (.group .anyPlus) .eol))))))

/-- The key the coordinator builds for a title (lines 106 to 111 of `main.go`):
`matches[1] + "@" + matches[2]`, or nothing when `len(matches) == 0`. -/
def upgradeKey (title : Str) : Option Str :=
  let ms := FindStringSubmatch titleRegex title
  if ms.length = 0 then none
  else some (ms.getD 1 [] ++ "@".toList ++ ms.getD 2 [])

/-! ## Records of the GitHub client -/

/-- Errors that `run` and its helpers return. -/
inductive Error where
  /-- The error `context.Canceled`, the value of `ctx.Err()` once the context is cancelled. -/
  | canceled
  /-- The error built by `fmt.Errorf`, with its message. -/
  | errorf (msg : Str)
  /-- An error returned by a call to the GitHub client. -/
  | api (code : Nat)
  deriving DecidableEq

/-- The fields of `github.Repository` that the program reads. `Archived` and `Permissions`
are pointers and may be nil. -/
structure Repository where
  FullName : Str
  Archived : Option Bool
  Permissions : Option (List (Str × Bool))
  deriving DecidableEq

/-- Getter `GetArchived`: the field, or `false` when it is nil. -/
def Repository.GetArchived (r : Repository) : Bool := r.Archived.getD false

/-- Getter `GetPermissions`: the map, or an empty map when it is nil. -/
def Repository.GetPermissions (r : Repository) : List (Str × Bool) := r.Permissions.getD []

/-- Index expression `m[key]` on a `map[string]bool`: the zero value when the key is absent. -/
def mapIndex (m : List (Str × Bool)) (key : Str) : Bool := (m.lookup key).getD false

/-- Assignment `m[key] = v` on a `map[string]bool`: an earlier entry for the key is replaced. -/
def mapAssign (m : List (Str × Bool)) (key : Str) (v : Bool) : List (Str × Bool) :=
  (key, v) :: m.filter (fun e => e.1 ≠ key)

/-- The values the program reads from a `github.PullRequest` through its getters:
`GetNumber()`, `GetTitle()`, `GetUser().GetID()` and `GetBase().GetRepo().GetFullName()`. -/
structure PullRequest where
  Number : Nat
  Title : Str
  UserID : Nat
  BaseRepoFullName : Str
  deriving DecidableEq

/-- The constant `dependabotUserID`. -/
def dependabotUserID : Nat := 49699333

/-! ## Paginated enumeration -/

/-- What one listing call returns: an error, or a page of items and `res.NextPage`. -/
inductive Response (α : Type) where
  | fail (err : Error)
  | ok (items : List α) (NextPage : Nat)

/-- What an enumerator did: the arguments `fn` was called with, in order; the page number
(`opts.Page`) of every request made, in order; and the value returned, where `none` means
that the loop has not returned (it is waiting for a response the list does not hold). -/
structure Enumeration (α : Type) where
  calls : List α
  requests : List Nat
  result : Option (Option Error)

/-- The `for` loop that `forEachRepo` and `forEachPR` share: request the page, return the
error if there is one, call `fn` on the items that pass the test, return nil when
`res.NextPage == 0` and otherwise go on with `opts.Page = res.NextPage`. -/
def pageLoop {α : Type} (keep : α → Bool) : Nat → List (Response α) → Enumeration α
  | page, [] => ⟨[], [page], none⟩
  | page, .fail err :: _ => ⟨[], [page], some (some err)⟩
  | page, .ok items next :: rest =>
    if next = 0 then ⟨items.filter keep, [page], some none⟩
    else
      let e := pageLoop keep next rest
      ⟨items.filter keep ++ e.calls, page :: e.requests, e.result⟩

/-- The test of `forEachRepo`: `!r.GetArchived() && r.GetPermissions()["push"]`. -/
def repoTest (r : Repository) : Bool :=
  !r.GetArchived && mapIndex r.GetPermissions "push".toList

/-- The test of `forEachPR`: `pr.GetUser().GetID() == dependabotUserID`. -/
def prTest (pr : PullRequest) : Bool := pr.UserID = dependabotUserID

/-- Function `forEachRepo`, the responses of `cli.Repositories.ListByOrg` being given. `opts.Page`
starts at its zero value. -/
def forEachRepo (responses : List (Response Repository)) : Enumeration Repository :=
  pageLoop repoTest 0 responses

/-- Function `forEachPR`, the responses of `cli.PullRequests.List` being given. -/
def forEachPR (responses : List (Response PullRequest)) : Enumeration PullRequest :=
  pageLoop prTest 0 responses

/-! ## The prompt -/

/-- The `switch` of `confirm` on the normalised text: `true` for "y" and "yes", `false` for
"n" and "no", no case otherwise. -/
def answer (s : Str) : Option Bool :=
  if s = "y".toList ∨ s = "yes".toList then some true
  else if s = "n".toList ∨ s = "no".toList then some false
  else none

/-- Function `confirm`: the verdict, the number of prompts printed and the input left over. Past the
end of the input `ReadString` returns the empty string for ever, and the error it reports is
discarded, so the loop returns only if the empty string is itself an answer; `none` stands for
a loop that never returns. -/
def confirm (ToLower TrimSpace : Str → Str) : List Str → Option (Bool × Nat × List Str)
  | [] =>
    match answer (TrimSpace (ToLower [])) with
    | some b => some (b, 1, [])
    | none => none
  | text :: rest =>
    match answer (TrimSpace (ToLower text)) with
    | some b => some (b, 1, rest)
    | none =>
      match confirm ToLower TrimSpace rest with
      | some (b, n, left) => some (b, n + 1, left)
      | none => none

/-- Function `strings.ToLower` on ASCII text. -/
def asciiToLower (s : Str) : Str := s.map Char.toLower

/-- White space among the ASCII characters, as `strings.TrimSpace` sees it. -/
def asciiIsSpace (c : Char) : Bool :=
  c = ' ' || (9 ≤ c.toNat && c.toNat ≤ 13)

/-- Function `strings.TrimSpace` on ASCII text. -/
def asciiTrimSpace (s : Str) : Str :=
  ((s.dropWhile asciiIsSpace).reverse.dropWhile asciiIsSpace).reverse

/-! ## The coordinator goroutine of `run` -/

/-- What the coordinator does that can be seen from outside. -/
inductive Event where
  /-- A call `confirm("Update %s to %s?", matches[1], matches[2])`. -/
  | confirm (pkg version : Str)
  /-- A MERGE line and `g.Go` of `merge(ctx, cli, pr)`. -/
  | merge (pr : PullRequest)
  /-- A SKIP line. -/
  | skip (pr : PullRequest)
  deriving DecidableEq

/-- State of the coordinator: the `dependencies` map, the standard input not yet read and the
events so far. -/
structure Coordinator where
  dependencies : List (Str × Bool)
  stdin : List Str
  events : List Event

/-- How the coordinator goroutine ends. -/
inductive Exit where
  /-- Line 93: `return ctx.Err()`. -/
  | ctxErr
  /-- Line 99: `return g.Wait()`. -/
  | wait
  /-- Line 108: `return fmt.Errorf(...)`. -/
  | mismatch (err : Error)
  /-- The goroutine does not return: `confirm` never returns, or no case of the `select`
  becomes ready. -/
  | blocked
  deriving DecidableEq

/-- The outcome of one execution of the `select` statement. -/
inductive Select where
  /-- Case `<-ctx.Done()`. -/
  | done
  /-- Case `pr, ok := <-pullRequests` with `ok == true`. -/
  | recv (pr : PullRequest)
  /-- Case `pr, ok := <-pullRequests` with `ok == false`: the channel is closed. -/
  | closed

/-- The result of one pass through the loop body. -/
inductive Step where
  | next (st : Coordinator)
  | exit (st : Coordinator) (e : Exit)

/-- The state the coordinator starts in. -/
def Coordinator.initial (stdin : List Str) : Coordinator := ⟨[], stdin, []⟩

/-- Lines 121 to 130: launch `merge` for an approved pull request, print SKIP otherwise. -/
def dispatch (st : Coordinator) (pr : PullRequest) (approved : Bool) : Coordinator :=
  if approved then { st with events := st.events ++ [.merge pr] }
  else { st with events := st.events ++ [.skip pr] }

/-- Lines 102 to 130: the loop body for a pull request received from the channel. -/
def receive (ToLower TrimSpace : Str → Str) (st : Coordinator) (pr : PullRequest) : Step :=
  if st.dependencies.length > 0 then .next st
  else
    let ms := FindStringSubmatch titleRegex pr.Title
    if ms.length = 0 then
      .exit st (.mismatch (.errorf ("PR title did match expected pattern: ".toList ++ pr.Title)))
    else
      let key := ms.getD 1 [] ++ "@".toList ++ ms.getD 2 []
      match st.dependencies.lookup key with
      | some approved => .next (dispatch st pr approved)
      | none =>
        let asked := st.events ++ [.confirm (ms.getD 1 []) (ms.getD 2 [])]
        match confirm ToLower TrimSpace st.stdin with
        | none => .exit { st with events := asked } .blocked
        | some (approved, _, left) =>
          .next (dispatch ⟨mapAssign st.dependencies key approved, left, asked⟩ pr approved)

/-- Lines 90 to 132: the loop of the coordinator, over the successive outcomes of its
`select`. -/
def coordinator (ToLower TrimSpace : Str → Str) : Coordinator → List Select → Coordinator × Exit
  | st, [] => (st, .blocked)
  | st, .done :: _ => (st, .ctxErr)
  | st, .closed :: _ => (st, .wait)
  | st, .recv pr :: rest =>
    match receive ToLower TrimSpace st pr with
    | .next st1 => coordinator ToLower TrimSpace st1 rest
    | .exit st1 e => (st1, e)

/-- The coordinator on a stream of pull requests that is delivered in full and then closed,
no cancellation being observed. -/
def coordinatorOnStream (ToLower TrimSpace : Str → Str) (stdin : List Str)
    (stream : List PullRequest) : Coordinator × Exit :=
  coordinator ToLower TrimSpace (.initial stdin) (stream.map .recv ++ [.closed])

/-- The pull requests for which `merge` was launched. -/
def merges : List Event → List PullRequest
  | [] => []
  | .merge pr :: es => pr :: merges es
  | _ :: es => merges es

/-- The pull requests for which a SKIP line was printed. -/
def skips : List Event → List PullRequest
  | [] => []
  | .skip pr :: es => pr :: skips es
  | _ :: es => skips es

/-- The calls of `confirm`, as pairs of package and version. -/
def confirms : List Event → List (Str × Str)
  | [] => []
  | .confirm p v :: es => (p, v) :: confirms es
  | _ :: es => confirms es

/-- The pull request an outcome list starts with, if it starts with one. -/
def firstReceived : List Select → Option PullRequest
  | .recv pr :: _ => some pr
  | _ => none

/-! ## Error groups -/

/-- Method `(*errgroup.Group).Wait`: the first non-nil error among the values the goroutines of the
group returned, given in the order in which they returned. -/
def errgroupWait (returned : List (Option Error)) : Option Error :=
  returned.findSome? id

/-- The value the coordinator goroutine returns, `mergeReturned` being what the `merge`
goroutines returned; `none` when it does not return. -/
def Exit.returned (mergeReturned : List (Option Error)) : Exit → Option (Option Error)
  | .ctxErr => some (some .canceled)
  | .wait => some (errgroupWait mergeReturned)
  | .mismatch err => some (some err)
  | .blocked => none

/-- Whether `ctx.Done()` of the coordinator is closed in state `st`: the context of the outer
group is cancelled, or a `merge` that was launched has returned an error. `failed` lists the
pull requests whose `merge` has returned an error. -/
def ctxDone (outerDone : Bool) (failed : List PullRequest) (st : Coordinator) : Bool :=
  outerDone || (merges st.events).any (fun pr => failed.contains pr)

/-- An outcome list is admissible when the loop takes `case <-ctx.Done()` only in a state in
which that channel is closed. -/
def admissible (ToLower TrimSpace : Str → Str) (outerDone : Bool) (failed : List PullRequest) :
    Coordinator → List Select → Bool
  | _, [] => true
  | st, .done :: _ => ctxDone outerDone failed st
  | _, .closed :: _ => true
  | st, .recv pr :: rest =>
    match receive ToLower TrimSpace st pr with
    | .next st1 => admissible ToLower TrimSpace outerDone failed st1 rest
    | .exit _ _ => true

/-- The state a pass through the loop body ends in. -/
def Step.state : Step → Coordinator
  | .next st => st
  | .exit st _ => st

/-! ## Sample data -/

/-- Responses that all succeed: one per page, each with its items and its `NextPage`. -/
def okPages {α : Type} (pages : List (List α × Nat)) : List (Response α) :=
  pages.map (fun p => .ok p.1 p.2)

/-- Repository `A`: archived, push allowed. -/
def repoA : Repository := ⟨"org/A".toList, some true, some [("push".toList, true)]⟩

/-- Repository `B`: not archived, push allowed. -/
def repoB : Repository :=
  ⟨"org/B".toList, some false, some [("pull".toList, true), ("push".toList, true)]⟩

/-- Repository `C`: not archived, push not allowed. -/
def repoC : Repository :=
  ⟨"org/C".toList, some false, some [("pull".toList, true), ("push".toList, false)]⟩

/-- First pull request of repository `B`. -/
def leftPad1 : PullRequest :=
  ⟨1, "Bump left-pad from 1.0.0 to 1.0.1".toList, dependabotUserID, "org/B".toList⟩

/-- Second pull request of repository `B`, with the same title. -/
def leftPad2 : PullRequest :=
  ⟨2, "Bump left-pad from 1.0.0 to 1.0.1".toList, dependabotUserID, "org/B".toList⟩

/-- A pull request whose title does not follow the pattern. -/
def updateFoo : PullRequest :=
  ⟨3, "Update dependency foo".toList, dependabotUserID, "org/B".toList⟩

/-- A pull request for another upgrade. -/
def lodash : PullRequest :=
  ⟨4, "Bump lodash from 4.17.20 to 4.17.21".toList, dependabotUserID, "org/B".toList⟩

/-! # Properties -/

/-! ## The title pattern -/

theorem matchLit_append {α : Type} (k : Str → Option α) (s rest : Str) :
    matchLit k s (s ++ rest) = k rest := by
  induction s with
  | nil => cases rest <;> rfl
  | cons c cs ih => simp [matchLit, ih]

theorem matchLit_some {α : Type} (k : Str → Option α) (s input : Str) (r : α)
    (h : matchLit k s input = some r) : ∃ rest, input = s ++ rest ∧ k rest = some r := by
  induction s generalizing input with
  | nil => exact ⟨input, rfl, by cases input <;> simpa [matchLit] using h⟩
  | cons c cs ih =>
    cases input with
    | nil => simp [matchLit] at h
    | cons d ds =>
      by_cases hcd : c = d
      · subst hcd
        simp only [matchLit, if_true] at h
        obtain ⟨rest, h1, h2⟩ := ih ds h
        exact ⟨rest, by simp [h1], h2⟩
      · simp [matchLit, hcd] at h

theorem anyStar_none {α : Type} (k : Str → Option α) (input : Str)
    (h : ∀ v, v <:+ input → k v = none) : anyStar k input = none := by
  induction input with
  | nil => simpa [anyStar] using h [] (List.suffix_refl _)
  | cons c cs ih =>
    have h1 : anyStar k cs = none := ih (fun v hv => h v (hv.trans (List.suffix_cons c cs)))
    have h2 : k (c :: cs) = none := h _ (List.suffix_refl _)
    by_cases hc : c = '\n'
    · simp only [anyStar, hc, if_true]
      exact hc ▸ h2
    · simp [anyStar, hc, h1, h2]

theorem anyStar_greedy {α : Type} (k : Str → Option α) (u v : Str) (r : α)
    (hu : '\n' ∉ u) (hk : k v = some r)
    (hlonger : ∀ v', v' <:+ v → v' ≠ v → k v' = none) :
    anyStar k (u ++ v) = some r := by
  induction u with
  | nil =>
    cases v with
    | nil => simpa [anyStar] using hk
    | cons c cs =>
      have h1 : anyStar k cs = none := by
        apply anyStar_none
        intro v' hv'
        apply hlonger v' (hv'.trans (List.suffix_cons c cs))
        intro heq
        have := hv'.length_le
        simp [heq] at this
      by_cases hc : c = '\n'
      · simp only [anyStar, hc, if_true]
        exact hc ▸ hk
      · simp [anyStar, hc, h1, hk]
  | cons a u1 ih =>
    have ha : a ≠ '\n' := fun h => hu (by simp [h])
    have hu1 : '\n' ∉ u1 := fun h => hu (by simp [h])
    simp [anyStar, ha, ih hu1]

theorem anyPlusK_greedy {α : Type} (k : Str → Option α) (u v : Str) (r : α)
    (hne : u ≠ []) (hu : '\n' ∉ u) (hk : k v = some r)
    (hlonger : ∀ v', v' <:+ v → v' ≠ v → k v' = none) :
    anyPlusK k (u ++ v) = some r := by
  cases u with
  | nil => exact absurd rfl hne
  | cons a u1 =>
    have ha : a ≠ '\n' := fun h => hu (by simp [h])
    have hu1 : '\n' ∉ u1 := fun h => hu (by simp [h])
    simp [anyPlusK, ha, anyStar_greedy k u1 v r hu1 hk hlonger]


theorem search_of_matchAt (re : Regex) (text input : Str) (m : List Str)
    (h : re.matchAt text input = some m) : re.search text input = some m := by
  cases input with
  | nil => simpa [Regex.search] using h
  | cons c cs => simp [Regex.search, h]

/-- A proper suffix of `sep ++ w` that itself starts with `sep` gives an occurrence of `sep`
inside `(sep ++ w).tail`. -/
theorem occurrence_of_proper_suffix (sep w v' q : Str)
    (hsuf : v' <:+ sep ++ w) (hne : v' ≠ sep ++ w) (hv' : v' = sep ++ q) :
    sep <:+: (sep ++ w).tail := by
  obtain ⟨p, hp⟩ := hsuf
  cases p with
  | nil => exact absurd (by simpa using hp) hne
  | cons a p1 =>
    refine ⟨p1, q, ?_⟩
    rw [← hp, hv']
    simp

theorem run_tail (text B : Str) (caps r : List Str) (k : Str → List Str → Option (List Str))
    (hB : B ≠ []) (nB : '\n' ∉ B) (hk : k [] (caps ++ [B]) = some r) :
    (Regex.seq (.group .anyPlus) .eol).run text B caps k = some r := by
  simp only [Regex.run]
  have := anyPlusK_greedy
    (fun rest => if rest = [] then k rest (caps ++ [B.take (B.length - rest.length)]) else none)
    B [] r hB nB (by simpa using hk)
    (by intro v' hv' hne; exact absurd (List.suffix_nil.mp hv') hne)
  simpa using this

theorem run_to (text A B : Str) (caps r : List Str) (k : Str → List Str → Option (List Str))
    (hA : A ≠ []) (hB : B ≠ []) (nA : '\n' ∉ A) (nB : '\n' ∉ B)
    (hto : ¬ " to ".toList <:+: "to ".toList ++ B)
    (hk : k [] (caps ++ [B]) = some r) :
    (Regex.seq .anyPlus (.seq (.lit " to ".toList) (.seq (.group .anyPlus) .eol))).run text
      (A ++ (" to ".toList ++ B)) caps k = some r := by
  rw [Regex.run, Regex.run]
  apply anyPlusK_greedy _ A _ r hA nA
  · rw [Regex.run, Regex.run, matchLit_append]
    exact run_tail text B caps r k hB nB hk
  · intro v' hv' hne
    by_contra hsome
    obtain ⟨r', hr'⟩ := Option.ne_none_iff_exists'.mp hsome
    rw [Regex.run, Regex.run] at hr'
    obtain ⟨q, hq, -⟩ := matchLit_some _ _ _ _ hr'
    exact hto (occurrence_of_proper_suffix " to ".toList B v' q hv' hne hq)

theorem run_from (text X A B : Str) (caps r : List Str)
    (k : Str → List Str → Option (List Str))
    (hX : X ≠ []) (hA : A ≠ []) (hB : B ≠ [])
    (nX : '\n' ∉ X) (nA : '\n' ∉ A) (nB : '\n' ∉ B)
    (hfrom : ¬ " from ".toList <:+: "from ".toList ++ (A ++ (" to ".toList ++ B)))
    (hto : ¬ " to ".toList <:+: "to ".toList ++ B)
    (hk : k [] (caps ++ [X] ++ [B]) = some r) :
    (Regex.seq (.group .anyPlus) (.seq (.lit " from ".toList)
      (.seq .anyPlus (.seq (.lit " to ".toList) (.seq (.group .anyPlus) .eol))))).run text
      (X ++ (" from ".toList ++ (A ++ (" to ".toList ++ B)))) caps k = some r := by
  rw [Regex.run, Regex.run, Regex.run]
  apply anyPlusK_greedy _ X _ r hX nX
  · rw [Regex.run, Regex.run, matchLit_append]
    have hcap : List.take ((X ++ (" from ".toList ++ (A ++ (" to ".toList ++ B)))).length -
        (" from ".toList ++ (A ++ (" to ".toList ++ B))).length)
        (X ++ (" from ".toList ++ (A ++ (" to ".toList ++ B)))) = X := by
      rw [List.length_append, Nat.add_sub_cancel, List.take_left']
      rfl
    rw [hcap]
    exact run_to text A B (caps ++ [X]) r k hA hB nA nB hto hk
  · intro v' hv' hne
    by_contra hsome
    obtain ⟨r', hr'⟩ := Option.ne_none_iff_exists'.mp hsome
    rw [Regex.run, Regex.run] at hr'
    obtain ⟨q, hq, -⟩ := matchLit_some _ _ _ _ hr'
    exact hfrom (occurrence_of_proper_suffix " from ".toList _ v' q hv' hne hq)

theorem findStringSubmatch_title (X A B : Str)
    (hX : X ≠ []) (hA : A ≠ []) (hB : B ≠ [])
    (nX : '\n' ∉ X) (nA : '\n' ∉ A) (nB : '\n' ∉ B)
    (hfrom : ¬ " from ".toList <:+: "from ".toList ++ (A ++ (" to ".toList ++ B)))
    (hto : ¬ " to ".toList <:+: "to ".toList ++ B) :
    FindStringSubmatch titleRegex
      ("Bump ".toList ++ (X ++ (" from ".toList ++ (A ++ (" to ".toList ++ B)))))
    = ["Bump ".toList ++ (X ++ (" from ".toList ++ (A ++ (" to ".toList ++ B)))), X, B] := by
  have hm : titleRegex.matchAt
      ("Bump ".toList ++ (X ++ (" from ".toList ++ (A ++ (" to ".toList ++ B)))))
      ("Bump ".toList ++ (X ++ (" from ".toList ++ (A ++ (" to ".toList ++ B)))))
      = some ["Bump ".toList ++ (X ++ (" from ".toList ++ (A ++ (" to ".toList ++ B)))), X, B] := by
    unfold Regex.matchAt titleRegex
    rw [Regex.run, Regex.run, if_pos rfl, Regex.run, Regex.run, matchLit_append]
    apply run_from _ X A B [] _ _ hX hA hB nX nA nB hfrom hto
    simp
  unfold FindStringSubmatch
  rw [search_of_matchAt _ _ _ _ hm]

/-- C1, as amended: for X, A and B non-empty and free of line feeds, such that the
" from " after X is the last " from " of the title and the " to " before B is the last
" to " of the title, matching the title "Bump X from A to B" against `titleRegex` gives the
groups X and B, and the key built from them is X ++ "@" ++ B. -/
theorem upgradeKey_of_last_separators (X A B : Str)
    (hX : X ≠ []) (hA : A ≠ []) (hB : B ≠ [])
    (nX : '\n' ∉ X) (nA : '\n' ∉ A) (nB : '\n' ∉ B)
    (hfrom : ¬ " from ".toList <:+: "from ".toList ++ A ++ " to ".toList ++ B)
    (hto : ¬ " to ".toList <:+: "to ".toList ++ B) :
    upgradeKey ("Bump ".toList ++ X ++ " from ".toList ++ A ++ " to ".toList ++ B)
      = some (X ++ "@".toList ++ B) := by
  simp only [List.append_assoc] at hfrom ⊢
  unfold upgradeKey
  rw [findStringSubmatch_title X A B hX hA hB nX nA nB hfrom hto]
  simp

/-- Witness for C1 as amended: the title "Bump left-pad from 1.0.0 to 1.0.1". -/
theorem upgradeKey_of_last_separators_witness :
    upgradeKey ("Bump ".toList ++ "left-pad".toList ++ " from ".toList ++ "1.0.0".toList
      ++ " to ".toList ++ "1.0.1".toList) = some ("left-pad".toList ++ "@".toList ++ "1.0.1".toList) :=
  upgradeKey_of_last_separators "left-pad".toList "1.0.0".toList "1.0.1".toList
    (by decide) (by decide) (by decide) (by decide) (by decide) (by decide)
    (by decide) (by decide)

/-- C1 fails as stated: with X = "a", A = "b" and B = "c to d" the greedy second `.+` runs up
to the last " to ", so the key is "a@d" and not "a@c to d"; with X = "a", A = "b from c" and
B = "d" the greedy first group runs up to the last " from ", so the key is "a from b@d"; and
with a line feed in X the title does not match at all. -/
theorem upgradeKey_not_always_first_split :
    (upgradeKey ("Bump ".toList ++ "a".toList ++ " from ".toList ++ "b".toList
        ++ " to ".toList ++ "c to d".toList) = some "a@d".toList
      ∧ upgradeKey ("Bump ".toList ++ "a".toList ++ " from ".toList ++ "b".toList
        ++ " to ".toList ++ "c to d".toList) ≠ some ("a".toList ++ "@".toList ++ "c to d".toList))
    ∧ (upgradeKey ("Bump ".toList ++ "a".toList ++ " from ".toList ++ "b from c".toList
        ++ " to ".toList ++ "d".toList) = some "a from b@d".toList
      ∧ upgradeKey ("Bump ".toList ++ "a".toList ++ " from ".toList ++ "b from c".toList
        ++ " to ".toList ++ "d".toList) ≠ some ("a".toList ++ "@".toList ++ "d".toList))
    ∧ upgradeKey ("Bump ".toList ++ "a\nb".toList ++ " from ".toList ++ "1".toList
        ++ " to ".toList ++ "2".toList) = none := by
  decide

/-! ## Enumeration -/

theorem pageLoop_complete {α : Type} (keep : α → Bool) (pages : List (List α × Nat))
    (last : List α) (h : ∀ p ∈ pages, p.2 ≠ 0) (page : Nat) :
    pageLoop keep page (okPages pages ++ [.ok last 0])
      = ⟨((pages.map (·.1)).flatten ++ last).filter keep, page :: pages.map (·.2), some none⟩ := by
  induction pages generalizing page with
  | nil => simp [okPages, pageLoop]
  | cons p ps ih =>
    have hp : p.2 ≠ 0 := h p (by simp)
    have ih1 := ih (fun q hq => h q (by simp [hq])) p.2
    simp only [okPages] at ih1
    simp [okPages, pageLoop, hp, ih1]

theorem pageLoop_failure {α : Type} (keep : α → Bool) (pages : List (List α × Nat))
    (err : Error) (later : List (Response α)) (h : ∀ p ∈ pages, p.2 ≠ 0) (page : Nat) :
    pageLoop keep page (okPages pages ++ .fail err :: later)
      = ⟨(pages.map (·.1)).flatten.filter keep, page :: pages.map (·.2), some (some err)⟩ := by
  induction pages generalizing page with
  | nil => simp [okPages, pageLoop]
  | cons p ps ih =>
    have hp : p.2 ≠ 0 := h p (by simp)
    have ih1 := ih (fun q hq => h q (by simp [hq])) p.2
    simp only [okPages] at ih1
    simp [okPages, pageLoop, hp, ih1]

/-- C5: when every request of `forEachRepo` succeeds, the pages before the last having a
non-zero `NextPage` and the last one `NextPage == 0`, `forEachRepo` returns nil, requests each
page once (page 0, then each `NextPage`), and calls `fn` on exactly the repositories of the
concatenated pages that are not archived and whose permissions grant "push", in order. -/
theorem forEachRepo_calls_filtered (pages : List (List Repository × Nat))
    (last : List Repository) (h : ∀ p ∈ pages, p.2 ≠ 0) :
    (forEachRepo (okPages pages ++ [.ok last 0])).result = some none
    ∧ (forEachRepo (okPages pages ++ [.ok last 0])).calls
        = ((pages.map (·.1)).flatten ++ last).filter
            (fun r => !r.GetArchived && mapIndex r.GetPermissions "push".toList)
    ∧ (forEachRepo (okPages pages ++ [.ok last 0])).requests = 0 :: pages.map (·.2) := by
  unfold forEachRepo
  rw [pageLoop_complete repoTest pages last h 0]
  exact ⟨rfl, rfl, rfl⟩

/-- Witness for C5: repository `A` (archived) on a first page, `B` (push allowed) and `C`
(no push) on a second and last page; only `B` is passed to `fn`. -/
theorem forEachRepo_calls_filtered_witness :
    (∀ p ∈ [([repoA], 2)], p.2 ≠ 0)
    ∧ ((forEachRepo (okPages [([repoA], 2)] ++ [.ok [repoB, repoC] 0])).result = some none
      ∧ (forEachRepo (okPages [([repoA], 2)] ++ [.ok [repoB, repoC] 0])).calls
          = (([([repoA], 2)].map (·.1)).flatten ++ [repoB, repoC]).filter
              (fun r => !r.GetArchived && mapIndex r.GetPermissions "push".toList)
      ∧ (forEachRepo (okPages [([repoA], 2)] ++ [.ok [repoB, repoC] 0])).requests
          = 0 :: [([repoA], 2)].map (·.2))
    ∧ (forEachRepo [.ok [repoA] 2, .ok [repoB, repoC] 0]).calls = [repoB] :=
  ⟨by decide, forEachRepo_calls_filtered [([repoA], 2)] [repoB, repoC] (by decide), by decide⟩

/-- C6 fails as stated: when the first page is returned and the request for the second page
fails, the enumerator returns the error but `fn` has already been called on the items of the
first page. -/
theorem forEach_failure_after_calls :
    ((forEachRepo [.ok [repoB] 2, .fail (.api 502)]).result = some (some (.api 502))
      ∧ (forEachRepo [.ok [repoB] 2, .fail (.api 502)]).calls = [repoB])
    ∧ ((forEachPR [.ok [leftPad1] 2, .fail (.api 502)]).result = some (some (.api 502))
      ∧ (forEachPR [.ok [leftPad1] 2, .fail (.api 502)]).calls = [leftPad1]) := by
  decide

/-- C6, as amended: when a page request of `forEachRepo` (respectively `forEachPR`) fails
after any number of pages that were returned, the enumerator returns that error, the failing
request is the last request it makes (no retry, whatever responses a further request would
get), and `fn` has been called on the items that pass the test in the pages returned before
the failure, in order, and on nothing else; so nothing is emitted when the first request
fails. -/
theorem forEach_failure_returns_error :
    (∀ (pages : List (List Repository × Nat)) (err : Error) (later : List (Response Repository)),
      (∀ p ∈ pages, p.2 ≠ 0) →
        (forEachRepo (okPages pages ++ .fail err :: later)).result = some (some err)
        ∧ (forEachRepo (okPages pages ++ .fail err :: later)).requests = 0 :: pages.map (·.2)
        ∧ (forEachRepo (okPages pages ++ .fail err :: later)).calls
            = (pages.map (·.1)).flatten.filter repoTest)
    ∧ (∀ (pages : List (List PullRequest × Nat)) (err : Error)
        (later : List (Response PullRequest)),
      (∀ p ∈ pages, p.2 ≠ 0) →
        (forEachPR (okPages pages ++ .fail err :: later)).result = some (some err)
        ∧ (forEachPR (okPages pages ++ .fail err :: later)).requests = 0 :: pages.map (·.2)
        ∧ (forEachPR (okPages pages ++ .fail err :: later)).calls
            = (pages.map (·.1)).flatten.filter prTest)
    ∧ (∀ (err : Error) (later : List (Response Repository)),
        (forEachRepo (.fail err :: later)).calls = [])
    ∧ (∀ (err : Error) (later : List (Response PullRequest)),
        (forEachPR (.fail err :: later)).calls = []) := by
  refine ⟨?_, ?_, ?_, ?_⟩
  · intro pages err later h
    unfold forEachRepo
    rw [pageLoop_failure repoTest pages err later h 0]
    exact ⟨rfl, rfl, rfl⟩
  · intro pages err later h
    unfold forEachPR
    rw [pageLoop_failure prTest pages err later h 0]
    exact ⟨rfl, rfl, rfl⟩
  · intro err later
    rfl
  · intro err later
    rfl

/-- Witness for C6 as amended: page one holds `A` and `B`, the request for page two fails and
is not repeated although a further response stands ready; `fn` was called on `B` only. -/
theorem forEach_failure_returns_error_witness :
    (∀ p ∈ [([repoA, repoB], 2)], p.2 ≠ 0)
    ∧ ((forEachRepo (okPages [([repoA, repoB], 2)]
          ++ .fail (.api 502) :: [.ok [repoC] 0])).result = some (some (.api 502))
      ∧ (forEachRepo (okPages [([repoA, repoB], 2)]
          ++ .fail (.api 502) :: [.ok [repoC] 0])).requests = 0 :: [([repoA, repoB], 2)].map (·.2)
      ∧ (forEachRepo (okPages [([repoA, repoB], 2)]
          ++ .fail (.api 502) :: [.ok [repoC] 0])).calls
          = ([([repoA, repoB], 2)].map (·.1)).flatten.filter repoTest) :=
  ⟨by decide,
    forEach_failure_returns_error.1 [([repoA, repoB], 2)] (.api 502) [.ok [repoC] 0] (by decide)⟩

/-! ## The prompt -/

theorem confirm_skips_unrecognised (ToLower TrimSpace : Str → Str) (pre : List Str)
    (line : Str) (post : List Str) (b : Bool)
    (hpre : ∀ l ∈ pre, answer (TrimSpace (ToLower l)) = none)
    (hline : answer (TrimSpace (ToLower line)) = some b) :
    confirm ToLower TrimSpace (pre ++ line :: post) = some (b, pre.length + 1, post) := by
  induction pre with
  | nil => simp [confirm, hline]
  | cons l ls ih =>
    have hl : answer (TrimSpace (ToLower l)) = none := hpre l (by simp)
    have ih1 := ih (fun q hq => hpre q (by simp [hq]))
    simp [confirm, hl, ih1]

theorem answer_eq_none_iff (s : Str) :
    answer s = none ↔ s ∉ ["y".toList, "yes".toList, "n".toList, "no".toList] := by
  unfold answer
  by_cases h1 : s = "y".toList ∨ s = "yes".toList
  · rcases h1 with h | h <;> simp [h]
  · by_cases h2 : s = "n".toList ∨ s = "no".toList
    · rcases h2 with h | h <;> simp [h]
    · rw [if_neg h1, if_neg h2]
      simp only [not_or] at h1 h2
      simp only [List.mem_cons, List.mem_singleton, List.not_mem_nil, or_false, not_or,
        true_iff]
      exact ⟨h1.1, h1.2, h2.1, h2.2⟩

theorem answer_of_mem (s : Str)
    (h : s ∈ ["y".toList, "yes".toList, "n".toList, "no".toList]) :
    answer s = some (decide (s = "y".toList ∨ s = "yes".toList)) := by
  simp only [List.mem_cons, List.mem_singleton, List.not_mem_nil, or_false] at h
  rcases h with h | h | h | h <;> subst h <;> decide

theorem answer_some_mem (s : Str) (b : Bool) (h : answer s = some b) :
    s ∈ ["y".toList, "yes".toList, "n".toList, "no".toList]
      ∧ b = decide (s = "y".toList ∨ s = "yes".toList) := by
  have hmem : s ∈ ["y".toList, "yes".toList, "n".toList, "no".toList] := by
    by_contra hn
    rw [(answer_eq_none_iff s).mpr hn] at h
    cases h
  refine ⟨hmem, ?_⟩
  rw [answer_of_mem s hmem] at h
  exact (Option.some.inj h).symm

theorem confirm_never_returns (ToLower TrimSpace : Str → Str) (lines : List Str)
    (hlines : ∀ l ∈ lines, answer (TrimSpace (ToLower l)) = none)
    (hend : answer (TrimSpace (ToLower [])) = none) :
    confirm ToLower TrimSpace lines = none := by
  induction lines with
  | nil => simp [confirm, hend]
  | cons l ls ih =>
    have hl : answer (TrimSpace (ToLower l)) = none := hlines l (by simp)
    have ih1 := ih (fun q hq => hlines q (by simp [hq]))
    simp [confirm, hl, ih1]

theorem confirm_returns_inv (ToLower TrimSpace : Str → Str) (lines : List Str) (b : Bool)
    (n : Nat) (left : List Str) (h : confirm ToLower TrimSpace lines = some (b, n, left)) :
    ∃ pre text, (∀ l ∈ pre, answer (TrimSpace (ToLower l)) = none)
      ∧ answer (TrimSpace (ToLower text)) = some b ∧ n = pre.length + 1
      ∧ (lines = pre ++ text :: left ∨ (lines = pre ∧ text = [] ∧ left = [])) := by
  induction lines generalizing n with
  | nil =>
    cases ha : answer (TrimSpace (ToLower [])) with
    | none => simp [confirm, ha] at h
    | some b1 =>
      simp only [confirm, ha, Option.some.injEq, Prod.mk.injEq] at h
      obtain ⟨rfl, rfl, rfl⟩ := h
      exact ⟨[], [], by simp, ha, rfl, Or.inr ⟨rfl, rfl, rfl⟩⟩
  | cons l ls ih =>
    cases ha : answer (TrimSpace (ToLower l)) with
    | some b1 =>
      simp only [confirm, ha, Option.some.injEq, Prod.mk.injEq] at h
      obtain ⟨rfl, rfl, rfl⟩ := h
      exact ⟨[], l, by simp, ha, rfl, Or.inl rfl⟩
    | none =>
      cases hc : confirm ToLower TrimSpace ls with
      | none => simp [confirm, ha, hc] at h
      | some res =>
        obtain ⟨b1, n1, left1⟩ := res
        simp only [confirm, ha, hc, Option.some.injEq, Prod.mk.injEq] at h
        obtain ⟨rfl, rfl, rfl⟩ := h
        obtain ⟨pre, text, hpre, htext, hn, hsplit⟩ := ih n1 hc
        refine ⟨l :: pre, text, ?_, htext, by simp [hn], ?_⟩
        · intro q hq
          rcases List.mem_cons.mp hq with rfl | hq
          · exact ha
          · exact hpre q hq
        · rcases hsplit with h1 | ⟨h1, h2, h3⟩
          · exact Or.inl (by simp [h1])
          · exact Or.inr ⟨by simp [h1], h2, h3⟩

/-- C8: `confirm` returns a boolean and nothing else, and it returns exactly when a recognised
answer is read. (1) When the input holds a line that, lower cased and trimmed, is one of "y",
"yes", "n", "no", `confirm` returns after prompting once for every line up to and including
the first such line, leaves the lines after it unread, and returns true exactly when that
line is "y" or "yes"; the lines before it do not influence the result. (2) When no line of
the input is recognised, and the empty text read past the end of the input is not either,
`confirm` never returns: it goes on prompting. (3) Whenever `confirm` returns, the texts it
read before the last one were not recognised, the last one was, the verdict is true exactly
when that one is "y" or "yes", one prompt was printed per text read, and that last text is a
line of the input, the later lines being left unread, or the empty text read past the end of
the input. -/
theorem confirm_first_recognised (ToLower TrimSpace : Str → Str) :
    (∀ (pre : List Str) (line : Str) (post : List Str),
      (∀ l ∈ pre,
        TrimSpace (ToLower l) ∉ ["y".toList, "yes".toList, "n".toList, "no".toList]) →
      TrimSpace (ToLower line) ∈ ["y".toList, "yes".toList, "n".toList, "no".toList] →
      confirm ToLower TrimSpace (pre ++ line :: post)
        = some (decide (TrimSpace (ToLower line) = "y".toList
                  ∨ TrimSpace (ToLower line) = "yes".toList), pre.length + 1, post))
    ∧ (∀ (lines : List Str),
      (∀ l ∈ lines,
        TrimSpace (ToLower l) ∉ ["y".toList, "yes".toList, "n".toList, "no".toList]) →
      TrimSpace (ToLower []) ∉ ["y".toList, "yes".toList, "n".toList, "no".toList] →
      confirm ToLower TrimSpace lines = none)
    ∧ (∀ (lines : List Str) (b : Bool) (n : Nat) (left : List Str),
      confirm ToLower TrimSpace lines = some (b, n, left) →
      ∃ pre text,
        (∀ l ∈ pre,
          TrimSpace (ToLower l) ∉ ["y".toList, "yes".toList, "n".toList, "no".toList])
        ∧ TrimSpace (ToLower text) ∈ ["y".toList, "yes".toList, "n".toList, "no".toList]
        ∧ b = decide (TrimSpace (ToLower text) = "y".toList
                ∨ TrimSpace (ToLower text) = "yes".toList)
        ∧ n = pre.length + 1
        ∧ (lines = pre ++ text :: left ∨ (lines = pre ∧ text = [] ∧ left = []))) := by
  refine ⟨?_, ?_, ?_⟩
  · intro pre line post hpre hline
    exact confirm_skips_unrecognised ToLower TrimSpace pre line post _
      (fun l hl => (answer_eq_none_iff _).mpr (hpre l hl)) (answer_of_mem _ hline)
  · intro lines hlines hend
    exact confirm_never_returns ToLower TrimSpace lines
      (fun l hl => (answer_eq_none_iff _).mpr (hlines l hl)) ((answer_eq_none_iff _).mpr hend)
  · intro lines b n left h
    obtain ⟨pre, text, hpre, htext, hn, hsplit⟩ :=
      confirm_returns_inv ToLower TrimSpace lines b n left h
    exact ⟨pre, text, fun l hl => (answer_eq_none_iff _).mp (hpre l hl),
      (answer_some_mem _ b htext).1, (answer_some_mem _ b htext).2, hn, hsplit⟩

/-- Witness for C8: the answers "maybe" and the empty line are asked again, " YES " is
accepted and the line after it stays unread; and on an input that holds only "maybe" and an
empty line the loop never returns. -/
theorem confirm_first_recognised_witness :
    ((∀ l ∈ ["maybe\n".toList, "\n".toList],
        asciiTrimSpace (asciiToLower l) ∉ ["y".toList, "yes".toList, "n".toList, "no".toList])
      ∧ asciiTrimSpace (asciiToLower " YES \r\n".toList)
          ∈ ["y".toList, "yes".toList, "n".toList, "no".toList]
      ∧ confirm asciiToLower asciiTrimSpace
          (["maybe\n".toList, "\n".toList] ++ " YES \r\n".toList :: ["n\n".toList])
        = some (decide (asciiTrimSpace (asciiToLower " YES \r\n".toList) = "y".toList
                  ∨ asciiTrimSpace (asciiToLower " YES \r\n".toList) = "yes".toList),
                ["maybe\n".toList, "\n".toList].length + 1, ["n\n".toList]))
    ∧ (asciiTrimSpace (asciiToLower [])
          ∉ ["y".toList, "yes".toList, "n".toList, "no".toList]
      ∧ confirm asciiToLower asciiTrimSpace ["maybe\n".toList, "\n".toList] = none)
    ∧ (confirm asciiToLower asciiTrimSpace ["maybe\n".toList, "No\n".toList, "y\n".toList]
          = some (false, 2, ["y\n".toList])
      ∧ ∃ pre text,
        (∀ l ∈ pre,
          asciiTrimSpace (asciiToLower l)
            ∉ ["y".toList, "yes".toList, "n".toList, "no".toList])
        ∧ asciiTrimSpace (asciiToLower text)
            ∈ ["y".toList, "yes".toList, "n".toList, "no".toList]
        ∧ false = decide (asciiTrimSpace (asciiToLower text) = "y".toList
                ∨ asciiTrimSpace (asciiToLower text) = "yes".toList)
        ∧ 2 = pre.length + 1
        ∧ (["maybe\n".toList, "No\n".toList, "y\n".toList] = pre ++ text :: ["y\n".toList]
            ∨ (["maybe\n".toList, "No\n".toList, "y\n".toList] = pre ∧ text = []
                ∧ ["y\n".toList] = []))) :=
  ⟨⟨by decide, by decide,
      (confirm_first_recognised asciiToLower asciiTrimSpace).1 ["maybe\n".toList, "\n".toList]
        " YES \r\n".toList ["n\n".toList] (by decide) (by decide)⟩,
    ⟨by decide,
      (confirm_first_recognised asciiToLower asciiTrimSpace).2.1 ["maybe\n".toList, "\n".toList]
        (by decide) (by decide)⟩,
    ⟨by decide,
      (confirm_first_recognised asciiToLower asciiTrimSpace).2.2
        ["maybe\n".toList, "No\n".toList, "y\n".toList] false 2 ["y\n".toList] (by decide)⟩⟩

/-! ## The coordinator -/

theorem dispatch_dependencies (st : Coordinator) (pr : PullRequest) (a : Bool) :
    (dispatch st pr a).dependencies = st.dependencies := by
  cases a <;> rfl

theorem upgradeKey_of_matches (title : Str)
    (h : ¬ (FindStringSubmatch titleRegex title).length = 0) :
    upgradeKey title = some ((FindStringSubmatch titleRegex title).getD 1 [] ++ "@".toList
      ++ (FindStringSubmatch titleRegex title).getD 2 []) := by
  simp [upgradeKey, h]

theorem upgradeKey_none_iff (title : Str) :
    upgradeKey title = none ↔ (FindStringSubmatch titleRegex title).length = 0 := by
  by_cases h : (FindStringSubmatch titleRegex title).length = 0 <;> simp [upgradeKey, h]

theorem receive_of_decided (ToLower TrimSpace : Str → Str) (st : Coordinator)
    (pr : PullRequest) (h : st.dependencies ≠ []) :
    receive ToLower TrimSpace st pr = .next st := by
  have : st.dependencies.length > 0 := List.length_pos.mpr h
  simp [receive, this]

theorem receive_mismatch (ToLower TrimSpace : Str → Str) (st : Coordinator)
    (pr : PullRequest) (h : st.dependencies = [])
    (hm : (FindStringSubmatch titleRegex pr.Title).length = 0) :
    receive ToLower TrimSpace st pr
      = .exit st (.mismatch
          (.errorf ("PR title did match expected pattern: ".toList ++ pr.Title))) := by
  simp [receive, h, hm]

theorem receive_blocked (ToLower TrimSpace : Str → Str) (st : Coordinator)
    (pr : PullRequest) (h : st.dependencies = [])
    (hm : ¬ (FindStringSubmatch titleRegex pr.Title).length = 0)
    (hc : confirm ToLower TrimSpace st.stdin = none) :
    receive ToLower TrimSpace st pr
      = .exit { st with events := st.events ++
          [.confirm ((FindStringSubmatch titleRegex pr.Title).getD 1 [])
            ((FindStringSubmatch titleRegex pr.Title).getD 2 [])] } .blocked := by
  simp [receive, h, hm, hc]

theorem receive_answered (ToLower TrimSpace : Str → Str) (st : Coordinator)
    (pr : PullRequest) (a : Bool) (n : Nat) (left : List Str) (h : st.dependencies = [])
    (hm : ¬ (FindStringSubmatch titleRegex pr.Title).length = 0)
    (hc : confirm ToLower TrimSpace st.stdin = some (a, n, left)) :
    receive ToLower TrimSpace st pr
      = .next (dispatch
          ⟨[((FindStringSubmatch titleRegex pr.Title).getD 1 [] ++ "@".toList
              ++ (FindStringSubmatch titleRegex pr.Title).getD 2 [], a)], left,
            st.events ++ [.confirm ((FindStringSubmatch titleRegex pr.Title).getD 1 [])
              ((FindStringSubmatch titleRegex pr.Title).getD 2 [])]⟩ pr a) := by
  simp [receive, h, hm, hc, mapAssign]

theorem coordinator_of_decided (ToLower TrimSpace : Str → Str) (st : Coordinator)
    (sched : List Select) (h : st.dependencies ≠ []) :
    (coordinator ToLower TrimSpace st sched).1 = st := by
  induction sched with
  | nil => rfl
  | cons s rest ih =>
    cases s with
    | done => rfl
    | closed => rfl
    | recv pr => simp [coordinator, receive_of_decided ToLower TrimSpace st pr h, ih]

theorem coordinator_stream_of_decided (ToLower TrimSpace : Str → Str) (st : Coordinator)
    (stream : List PullRequest) (h : st.dependencies ≠ []) :
    coordinator ToLower TrimSpace st (stream.map .recv ++ [.closed]) = (st, .wait) := by
  induction stream with
  | nil => rfl
  | cons pr rest ih => simp [coordinator, receive_of_decided ToLower TrimSpace st pr h, ih]

/-- The events of a whole run: none, or those of the first pull request received. -/
theorem coordinator_initial_events (ToLower TrimSpace : Str → Str) (stdin : List Str)
    (sched : List Select) :
    (coordinator ToLower TrimSpace (.initial stdin) sched).1.events = []
    ∨ ∃ pr p v, firstReceived sched = some pr ∧ upgradeKey pr.Title = some (p ++ "@".toList ++ v)
        ∧ ((coordinator ToLower TrimSpace (.initial stdin) sched).1.events = [.confirm p v]
          ∨ (coordinator ToLower TrimSpace (.initial stdin) sched).1.events
              = [.confirm p v, .merge pr]
          ∨ (coordinator ToLower TrimSpace (.initial stdin) sched).1.events
              = [.confirm p v, .skip pr]) := by
  cases sched with
  | nil => exact Or.inl rfl
  | cons s rest =>
    cases s with
    | done => exact Or.inl rfl
    | closed => exact Or.inl rfl
    | recv pr =>
      by_cases hm : (FindStringSubmatch titleRegex pr.Title).length = 0
      · left
        have hr := receive_mismatch ToLower TrimSpace (.initial stdin) pr rfl hm
        simp only [coordinator, hr]
        rfl
      · right
        refine ⟨pr, _, _, rfl, upgradeKey_of_matches pr.Title hm, ?_⟩
        cases hc : confirm ToLower TrimSpace stdin with
        | none =>
          left
          have hr := receive_blocked ToLower TrimSpace (.initial stdin) pr rfl hm hc
          simp only [coordinator, hr]
          rfl
        | some res =>
          obtain ⟨a, n, left⟩ := res
          right
          have hr := receive_answered ToLower TrimSpace (.initial stdin) pr a n left rfl hm hc
          simp only [coordinator, hr]
          rw [coordinator_of_decided]
          · cases a
            · right
              simp [dispatch, Coordinator.initial]
            · left
              simp [dispatch, Coordinator.initial]
          · simp [dispatch_dependencies]

/-- The events of a run whose first pull request has a title that matches. -/
theorem coordinator_first_matches (ToLower TrimSpace : Str → Str) (stdin : List Str)
    (pr : PullRequest) (rest : List Select)
    (hm : ¬ (FindStringSubmatch titleRegex pr.Title).length = 0) :
    confirms (coordinator ToLower TrimSpace (.initial stdin) (.recv pr :: rest)).1.events
      = [((FindStringSubmatch titleRegex pr.Title).getD 1 [],
          (FindStringSubmatch titleRegex pr.Title).getD 2 [])] := by
  cases hc : confirm ToLower TrimSpace stdin with
  | none =>
    have hr := receive_blocked ToLower TrimSpace (.initial stdin) pr rfl hm hc
    simp only [coordinator, hr]
    rfl
  | some res =>
    obtain ⟨a, n, left⟩ := res
    have hr := receive_answered ToLower TrimSpace (.initial stdin) pr a n left rfl hm hc
    simp only [coordinator, hr]
    rw [coordinator_of_decided]
    · cases a <;> simp [dispatch, Coordinator.initial, confirms]
    · simp [dispatch_dependencies]

theorem receive_state_lookup (ToLower TrimSpace : Str → Str) (st : Coordinator)
    (pr : PullRequest) (k : Str) (v : Bool) (h : st.dependencies.lookup k = some v) :
    (receive ToLower TrimSpace st pr).state.dependencies.lookup k = some v := by
  by_cases hd : st.dependencies = []
  · simp [hd] at h
  · rw [receive_of_decided ToLower TrimSpace st pr hd]
    exact h

theorem coordinator_lookup (ToLower TrimSpace : Str → Str) (sched : List Select)
    (st : Coordinator) (k : Str) (v : Bool) (h : st.dependencies.lookup k = some v) :
    (coordinator ToLower TrimSpace st sched).1.dependencies.lookup k = some v := by
  induction sched generalizing st with
  | nil => exact h
  | cons s rest ih =>
    cases s with
    | done => exact h
    | closed => exact h
    | recv pr =>
      have hs := receive_state_lookup ToLower TrimSpace st pr k v h
      simp only [coordinator]
      cases hr : receive ToLower TrimSpace st pr with
      | next st1 =>
        rw [hr] at hs
        exact ih st1 hs
      | exit st1 e =>
        rw [hr] at hs
        exact hs

theorem receive_inserts (ToLower TrimSpace : Str → Str) (st st1 : Coordinator)
    (pr : PullRequest) (k : Str) (v : Bool)
    (hr : receive ToLower TrimSpace st pr = .next st1)
    (hk : st.dependencies.lookup k = none) (hk1 : st1.dependencies.lookup k = some v) :
    upgradeKey pr.Title = some k
      ∧ ∃ n left, confirm ToLower TrimSpace st.stdin = some (v, n, left) := by
  by_cases hd : st.dependencies = []
  · by_cases hm : (FindStringSubmatch titleRegex pr.Title).length = 0
    · rw [receive_mismatch ToLower TrimSpace st pr hd hm] at hr
      cases hr
    · cases hc : confirm ToLower TrimSpace st.stdin with
      | none =>
        rw [receive_blocked ToLower TrimSpace st pr hd hm hc] at hr
        cases hr
      | some res =>
        obtain ⟨a, n, left⟩ := res
        rw [receive_answered ToLower TrimSpace st pr a n left hd hm hc] at hr
        injection hr with hr
        subst hr
        rw [dispatch_dependencies] at hk1
        simp only [List.lookup] at hk1
        split at hk1
        · rename_i heq
          have hkey := eq_of_beq heq
          simp only [Option.some.injEq] at hk1
          subst hk1
          exact ⟨by rw [upgradeKey_of_matches pr.Title hm, hkey], n, left, rfl⟩
        · cases hk1
  · rw [receive_of_decided ToLower TrimSpace st pr hd] at hr
    injection hr with hr
    subst hr
    rw [hk] at hk1
    cases hk1

/-- C3: for a non-empty collection of pull requests whose titles all give the same upgrade
identity, delivered in any order and followed by the closing of the channel, the coordinator
calls `confirm` exactly once, and that call is for this identity. -/
theorem confirm_called_once (ToLower TrimSpace : Str → Str) (stdin : List Str)
    (prs : List PullRequest) (I : Str) (hne : prs ≠ [])
    (hI : ∀ pr ∈ prs, upgradeKey pr.Title = some I)
    (arrival : List PullRequest) (hperm : arrival.Perm prs) :
    ∃ p v, p ++ "@".toList ++ v = I
      ∧ confirms (coordinatorOnStream ToLower TrimSpace stdin arrival).1.events = [(p, v)] := by
  cases arrival with
  | nil => exact absurd hperm.symm.eq_nil hne
  | cons pr rest =>
    have hpr : upgradeKey pr.Title = some I := hI pr (hperm.subset (by simp))
    have hm : ¬ (FindStringSubmatch titleRegex pr.Title).length = 0 := by
      intro h0
      rw [(upgradeKey_none_iff pr.Title).mpr h0] at hpr
      cases hpr
    refine ⟨_, _, ?_, coordinator_first_matches ToLower TrimSpace stdin pr _ hm⟩
    rw [upgradeKey_of_matches pr.Title hm] at hpr
    exact Option.some.inj hpr

/-- Witness for C3: the two pull requests of repository `B`, arriving in the other order. -/
theorem confirm_called_once_witness :
    [leftPad1, leftPad2] ≠ []
    ∧ (∀ pr ∈ [leftPad1, leftPad2], upgradeKey pr.Title = some "left-pad@1.0.1".toList)
    ∧ [leftPad2, leftPad1].Perm [leftPad1, leftPad2]
    ∧ ∃ p v, p ++ "@".toList ++ v = "left-pad@1.0.1".toList
      ∧ confirms (coordinatorOnStream asciiToLower asciiTrimSpace ["y\n".toList]
          [leftPad2, leftPad1]).1.events = [(p, v)] :=
  ⟨by decide, by decide, List.Perm.swap leftPad1 leftPad2 [],
    confirm_called_once asciiToLower asciiTrimSpace ["y\n".toList] [leftPad1, leftPad2]
      "left-pad@1.0.1".toList (by decide) (by decide) [leftPad2, leftPad1]
      (List.Perm.swap leftPad1 leftPad2 [])⟩

/-- C9: once the `dependencies` map is not empty, the loop body leaves the state as it is for
every pull request it receives (no parse, no prompt, no merge, no SKIP line, no error). So,
for every input and every sequence of `select` outcomes from the initial state: `confirm` is
called at most once; every pull request merged or skipped has the upgrade identity of the
first pull request received; and a call of `confirm` is for that identity. -/
theorem later_items_ignored (ToLower TrimSpace : Str → Str) :
    (∀ (st : Coordinator) (pr : PullRequest), st.dependencies ≠ [] →
      receive ToLower TrimSpace st pr = .next st)
    ∧ (∀ (stdin : List Str) (sched : List Select),
      (confirms (coordinator ToLower TrimSpace (.initial stdin) sched).1.events).length ≤ 1
      ∧ (∀ pr, pr ∈ merges (coordinator ToLower TrimSpace (.initial stdin) sched).1.events
            ∨ pr ∈ skips (coordinator ToLower TrimSpace (.initial stdin) sched).1.events →
          ∃ first, firstReceived sched = some first
            ∧ upgradeKey pr.Title = upgradeKey first.Title)
      ∧ (∀ p v, (p, v) ∈ confirms (coordinator ToLower TrimSpace (.initial stdin) sched).1.events →
          ∃ first, firstReceived sched = some first
            ∧ upgradeKey first.Title = some (p ++ "@".toList ++ v))) := by
  refine ⟨fun st pr h => receive_of_decided ToLower TrimSpace st pr h, ?_⟩
  intro stdin sched
  rcases coordinator_initial_events ToLower TrimSpace stdin sched with h | h
  · rw [h]
    simp [confirms, merges, skips]
  · obtain ⟨first, p, v, hf, hk, h | h | h⟩ := h <;> rw [h] <;>
      simp only [confirms, merges, skips, List.length_cons, List.length_nil, List.mem_cons,
        List.mem_singleton, List.not_mem_nil, or_false, false_or, Prod.mk.injEq] <;>
      refine ⟨by omega, ?_, ?_⟩
    · intro pr hpr
      exact absurd hpr (by simp)
    · rintro p1 v1 ⟨rfl, rfl⟩
      exact ⟨first, hf, hk⟩
    · rintro pr rfl
      exact ⟨pr, hf, rfl⟩
    · rintro p1 v1 ⟨rfl, rfl⟩
      exact ⟨first, hf, hk⟩
    · rintro pr rfl
      exact ⟨pr, hf, rfl⟩
    · rintro p1 v1 ⟨rfl, rfl⟩
      exact ⟨first, hf, hk⟩

/-- Witness for C9: with one verdict in the map, a pull request for another upgrade and one
with a title that does not match both leave the state untouched. -/
theorem later_items_ignored_witness :
    ([("left-pad@1.0.1".toList, true)] ≠ []
      ∧ receive asciiToLower asciiTrimSpace ⟨[("left-pad@1.0.1".toList, true)], [], []⟩ updateFoo
          = .next ⟨[("left-pad@1.0.1".toList, true)], [], []⟩)
    ∧ receive asciiToLower asciiTrimSpace ⟨[("left-pad@1.0.1".toList, true)], [], []⟩ lodash
          = .next ⟨[("left-pad@1.0.1".toList, true)], [], []⟩ :=
  ⟨⟨by decide, (later_items_ignored asciiToLower asciiTrimSpace).1
      ⟨[("left-pad@1.0.1".toList, true)], [], []⟩ updateFoo (by decide)⟩,
    (later_items_ignored asciiToLower asciiTrimSpace).1
      ⟨[("left-pad@1.0.1".toList, true)], [], []⟩ lodash (by decide)⟩

/-- C10: the `dependencies` map only grows. In one pass of the loop body from any state, a
key that is present keeps its verdict, and a key that appears is the upgrade identity of the
pull request received, with the value that the call of `confirm` on the current input
returned. Over any run from any state, a key that is present keeps its verdict to the end. -/
theorem dependencies_append_only (ToLower TrimSpace : Str → Str) :
    (∀ (st st1 : Coordinator) (pr : PullRequest),
      receive ToLower TrimSpace st pr = .next st1 →
        (∀ k v, st.dependencies.lookup k = some v → st1.dependencies.lookup k = some v)
        ∧ (∀ k v, st.dependencies.lookup k = none → st1.dependencies.lookup k = some v →
            upgradeKey pr.Title = some k
            ∧ ∃ n left, confirm ToLower TrimSpace st.stdin = some (v, n, left)))
    ∧ (∀ (st : Coordinator) (sched : List Select) (k : Str) (v : Bool),
      st.dependencies.lookup k = some v →
        (coordinator ToLower TrimSpace st sched).1.dependencies.lookup k = some v) := by
  refine ⟨fun st st1 pr hr => ⟨fun k v h => ?_, fun k v hk hk1 => ?_⟩, fun st sched k v h => ?_⟩
  · have hs := receive_state_lookup ToLower TrimSpace st pr k v h
    rw [hr] at hs
    exact hs
  · exact receive_inserts ToLower TrimSpace st st1 pr k v hr hk hk1
  · exact coordinator_lookup ToLower TrimSpace sched st k v h

/-- Witness for C10: the verdict recorded for left-pad is still there after a run over three
more pull requests. -/
theorem dependencies_append_only_witness :
    (⟨[("left-pad@1.0.1".toList, false)], ["y\n".toList], []⟩ : Coordinator).dependencies.lookup
        "left-pad@1.0.1".toList = some false
    ∧ (coordinator asciiToLower asciiTrimSpace
        ⟨[("left-pad@1.0.1".toList, false)], ["y\n".toList], []⟩
        [.recv lodash, .recv leftPad1, .recv updateFoo, .closed]).1.dependencies.lookup
          "left-pad@1.0.1".toList = some false :=
  ⟨by decide, (dependencies_append_only asciiToLower asciiTrimSpace).2
    ⟨[("left-pad@1.0.1".toList, false)], ["y\n".toList], []⟩
    [.recv lodash, .recv leftPad1, .recv updateFoo, .closed] "left-pad@1.0.1".toList false
    (by decide)⟩

/-- C2 on the code: two pull requests titled "Bump left-pad from 1.0.0 to 1.0.1" are
delivered and the operator answers "y". The coordinator launches `merge` for the first one
only; the second one, which has the same upgrade identity, is dropped by the test on
`len(dependencies)`. When the operator answers "n", only the first one gets a SKIP line. -/
theorem second_pull_request_not_merged :
    upgradeKey leftPad2.Title = upgradeKey leftPad1.Title
    ∧ confirm asciiToLower asciiTrimSpace ["y\n".toList] = some (true, 1, [])
    ∧ merges (coordinatorOnStream asciiToLower asciiTrimSpace ["y\n".toList]
        [leftPad1, leftPad2]).1.events = [leftPad1]
    ∧ (coordinatorOnStream asciiToLower asciiTrimSpace ["y\n".toList]
        [leftPad1, leftPad2]).2 = .wait
    ∧ confirm asciiToLower asciiTrimSpace ["n\n".toList] = some (false, 1, [])
    ∧ skips (coordinatorOnStream asciiToLower asciiTrimSpace ["n\n".toList]
        [leftPad1, leftPad2]).1.events = [leftPad1] := by
  decide

/-- C4 on the code: a pull request titled "Update dependency foo" that arrives after a pull
request with a matching title is never parsed; the coordinator goes on to `g.Wait()` and no
title error is returned. The same pull request arriving first gives the title error. -/
theorem mismatch_after_first_not_reported :
    upgradeKey updateFoo.Title = none
    ∧ (coordinatorOnStream asciiToLower asciiTrimSpace ["y\n".toList]
        [leftPad1, updateFoo]).2 = .wait
    ∧ (coordinatorOnStream asciiToLower asciiTrimSpace ["y\n".toList]
        [leftPad1, updateFoo]).1.events
        = [.confirm "left-pad".toList "1.0.1".toList, .merge leftPad1]
    ∧ (coordinatorOnStream asciiToLower asciiTrimSpace ["y\n".toList]
        [updateFoo, leftPad1]).2
        = .mismatch (.errorf "PR title did match expected pattern: Update dependency foo".toList)
    := by
  decide

/-- C7 on the code: the operator approves the first pull request, its `merge` returns an
error, and the next `select` takes `case <-ctx.Done()`, which that error has made ready. The
coordinator returns `ctx.Err()`, so the outer group, and with it `run`, returns
`context.Canceled` whatever the producer returns afterwards; the error of `merge` is lost,
because `g.Wait()` of the merge group is never called. When the `select` sees the closed
channel instead, the error of `merge` is returned. -/
theorem merge_failure_masked_by_cancellation :
    admissible asciiToLower asciiTrimSpace false [leftPad1] (.initial ["y\n".toList])
        [.recv leftPad1, .done] = true
    ∧ merges (coordinator asciiToLower asciiTrimSpace (.initial ["y\n".toList])
        [.recv leftPad1, .done]).1.events = [leftPad1]
    ∧ (coordinator asciiToLower asciiTrimSpace (.initial ["y\n".toList])
        [.recv leftPad1, .done]).2 = .ctxErr
    ∧ (∀ producer : Option Error,
        ((coordinator asciiToLower asciiTrimSpace (.initial ["y\n".toList])
          [.recv leftPad1, .done]).2.returned [some (.api 422)]).map
            (fun c => errgroupWait [c, producer]) = some (some .canceled))
    ∧ Error.canceled ≠ .api 422
    ∧ ((coordinator asciiToLower asciiTrimSpace (.initial ["y\n".toList])
          [.recv leftPad1, .closed]).2.returned [some (.api 422)]).map
            (fun c => errgroupWait [none, c]) = some (some (.api 422)) := by
  refine ⟨by decide, by decide, by decide, ?_, by decide, by decide⟩
  intro producer
  have h : (coordinator asciiToLower asciiTrimSpace (.initial ["y\n".toList])
      [.recv leftPad1, .done]).2 = .ctxErr := by decide
  rw [h]
  rfl

end MergeDeps
